import Mathlib

/-!
Verification of the `tabelle` spreadsheet core against its specification.

The Rust sources under `tabelle-core` are shallowly embedded below:
pure functions become Lean functions over `Nat`/`Int`/`List Char`
(Rust `String`s are modelled as `List Char`, which is order-isomorphic to
UTF-8 byte order), `f64` is modelled as `ℚ` (no NaN arises in any claim),
and panicking code paths (`todo!`, `unreachable!`, failed `assert!`,
out-of-range `usize` arithmetic) are modelled by `Option`, with `none`
standing for a panic.
-/

/-- Rust `char::is_ascii_uppercase`: `'A'..='Z'`. -/
def is_ascii_uppercase (c : Char) : Bool :=
  65 ≤ c.toNat && c.toNat ≤ 90

/-- Rust `char::is_ascii_lowercase`: `'a'..='z'`. -/
def is_ascii_lowercase (c : Char) : Bool :=
  97 ≤ c.toNat && c.toNat ≤ 122

/-- Rust `char::is_ascii_alphabetic`. -/
def is_ascii_alphabetic (c : Char) : Bool :=
  is_ascii_uppercase c || is_ascii_lowercase c

/-- Rust `char::is_ascii_digit`: `'0'..='9'`. -/
def is_ascii_digit (c : Char) : Bool :=
  48 ≤ c.toNat && c.toNat ≤ 57

/-- Rust `char::to_ascii_uppercase`. -/
def to_ascii_uppercase (c : Char) : Char :=
  if is_ascii_lowercase c then Char.ofNat (c.toNat - 32) else c

/-- Rust `char::to_digit(10)` restricted to its result as a `Nat`. -/
def rust_to_digit10 (c : Char) : Option Nat :=
  if is_ascii_digit c then some (c.toNat - 48) else none

/-- Rust `char::is_whitespace`, restricted to the ASCII whitespace characters
(the only ones that occur in the formula separator set and the CSV inputs
considered here; the full Unicode `White_Space` set is irrelevant to them). -/
def rust_is_whitespace (c : Char) : Bool :=
  c = ' ' || c = '\t' || c = '\n' || c = '\r'

/-- The letter table of `to_column_name` (tabelle-core/src/lib.rs). -/
def letters : List Char :=
  ['A', 'B', 'C', 'D', 'E', 'F', 'G', 'H', 'I', 'J', 'K', 'L', 'M', 'N',
   'O', 'P', 'Q', 'R', 'S', 'T', 'U', 'V', 'W', 'X', 'Y', 'Z']

/-- `letters[i]`; every use in the source is in bounds (`i < 26`). -/
def letter_at (i : Nat) : Char :=
  letters.getD i 'A'

/-- The `while index >= 26` loop of `to_column_name`, written with explicit
fuel so that it is structurally recursive and kernel-reducible.  The loop
variable strictly decreases (`index / 26 < index` when `26 ≤ index`), so fuel
`index` is always sufficient; `to_column_name_go_irrel` below shows the fuel
is irrelevant as long as it dominates the index. -/
def to_column_name_go : Nat → Nat → List Char
  | 0, index => [letter_at index]
  | fuel + 1, index =>
    if index < 26 then [letter_at index]
    else to_column_name_go fuel (index / 26) ++ [letter_at (index % 26)]

/-- `to_column_name` (tabelle-core/src/lib.rs, lines 431-443): repeatedly
prepend `letters[index % 26]` while `index >= 26`, dividing by 26, and
finally prepend `letters[index]`. -/
def to_column_name (index : Nat) : List Char :=
  to_column_name_go index index

/-- The accumulator loop of `column_name_to_index`
(tabelle-core/src/lib.rs, lines 445-460). -/
def column_name_to_index_go : Nat → List Char → Option Nat
  | acc, [] => some acc
  | acc, c :: cs =>
    if is_ascii_alphabetic c then
      column_name_to_index_go (acc * 26 + ((to_ascii_uppercase c).toNat - 65)) cs
    else
      none

/-- `column_name_to_index`: fails on the empty string and on any
non-ASCII-alphabetic character, otherwise folds `result * 26 + (ch - 'A')`
case-insensitively.  `none` models the `Err` case. -/
def column_name_to_index (column : List Char) : Option Nat :=
  if column.isEmpty then none else column_name_to_index_go 0 column

/-- Rust `str::parse::<usize>`: an optional leading `'+'`, then at least one
ASCII digit and nothing else.  (Overflow is not modelled; every input in the
development is tiny.) -/
def parse_usize (s : List Char) : Option Nat :=
  let digits := match s with
    | '+' :: rest => rest
    | _ => s
  if digits.isEmpty then none
  else if digits.all is_ascii_digit then
    some (digits.foldl (fun a c => a * 10 + (c.toNat - 48)) 0)
  else none

/-- The column-scanning loop of `cell_name_to_position`
(tabelle-core/src/lib.rs, lines 462-489).  The loop accumulates uppercase
ASCII letters into the column index `x`; at the first other character it
fails if no letter was seen, otherwise parses the whole remainder as the
decimal row and stops.  Running out of characters while still scanning the
column (including the empty input) is the source's final
`cell.is_empty() || is_at_column` failure. -/
def cell_name_to_position_go : List Char → Nat → Bool → Option (Nat × Nat)
  | [], _, _ => none
  | ch :: rest, x, has_column =>
    if is_ascii_alphabetic ch && is_ascii_uppercase ch then
      cell_name_to_position_go rest (x * 26 + ((to_ascii_uppercase ch).toNat - 65)) true
    else if has_column then
      (parse_usize (ch :: rest)).map (fun y => (x, y))
    else
      none

/-- `cell_name_to_position`: uppercase-letter column part, decimal row part. -/
def cell_name_to_position (cell : List Char) : Option (Nat × Nat) :=
  cell_name_to_position_go cell 0 false

/-- `CellPosition` (tabelle-core/src/cells.rs): a zero-based
`(column, row)` pair.  The tuple-struct fields `.0`/`.1` are named
`x`/`y` here. -/
structure CellPosition where
  x : Nat
  y : Nat
deriving DecidableEq

/-- `CellPosition::name`: column letters followed by the decimal row. -/
def CellPosition.name (p : CellPosition) : List Char :=
  to_column_name p.x ++ (Nat.repr p.y).toList

/-- `CellPosition::from_index` (row-major). -/
def CellPosition.from_index (index width : Nat) : CellPosition :=
  ⟨index % width, index / width⟩

/-- `CellReference` (tabelle-core/src/cells/cell_content/formula.rs). -/
inductive CellReference where
  | Cell (p : CellPosition)
  | Row (r : Nat)
  | Column (c : Nat)
deriving DecidableEq

/-- `Value` — a formula's evaluation result.  `f64` is modelled as `ℚ`. -/
inductive Value where
  | String (s : List Char)
  | Number (n : Int)
  | FloatNumber (q : ℚ)
  | Empty
  | Error
deriving DecidableEq

/-- `Formula` (tabelle-core/src/cells/cell_content/formula.rs). -/
structure Formula where
  position : CellPosition
  raw : List Char
  parsed : List Char
  references : List CellReference
  value : Value
deriving DecidableEq

/-- `CellContent` (tabelle-core/src/cells/cell_content.rs).  The second
`FloatNumber` field is the `i32` count of fractional digits typed so far. -/
inductive CellContent where
  | Empty
  | Text (s : List Char)
  | Number (n : Int)
  | FloatNumber (v : ℚ) (digit_count : Int)
  | Formula (f : Formula)
deriving DecidableEq

/-- `CellContent::as_str`: `Some` only for `Text`. -/
def CellContent.as_str : CellContent → Option (List Char)
  | .Text s => some s
  | _ => none

/-- `CellContent::is_empty`. -/
def CellContent.is_empty : CellContent → Bool
  | .Empty => true
  | _ => false

/-- Total comparison of `Nat` producing a Rust-style `Ordering`. -/
def nat_cmp (a b : Nat) : Ordering :=
  if a < b then .lt else if a = b then .eq else .gt

/-- Total comparison of `Int` (Rust `i64::cmp`). -/
def int_cmp (a b : Int) : Ordering :=
  if a < b then .lt else if a = b then .eq else .gt

/-- Comparison of the `ℚ` model of `f64`.  `f64::partial_cmp` is `None` only
for NaN, which has no counterpart in `ℚ`, so the comparison is total here. -/
def rat_cmp (a b : ℚ) : Ordering :=
  if a < b then .lt else if a = b then .eq else .gt

/-- Rust `str::cmp`: lexicographic on the UTF-8 bytes, which agrees with
lexicographic comparison of the scalar-value sequence used here. -/
def str_cmp : List Char → List Char → Ordering
  | [], [] => .eq
  | [], _ :: _ => .lt
  | _ :: _, [] => .gt
  | a :: xs, b :: ys =>
    match nat_cmp a.toNat b.toNat with
    | .eq => str_cmp xs ys
    | o => o

/-- `PartialOrd for CellContent` (tabelle-core/src/cells/cell_content.rs,
lines 189-271).  Rust's `.reverse()` on `Ordering` is Lean's `.swap`.  Each
`?` in the source propagates a `None` from a primitive `partial_cmp`; in
this model those are all total (no NaN), so every branch yields `some`. -/
def CellContent.cmp_opt : CellContent → CellContent → Option Ordering :=
  fun self other =>
  match self with
  | .Empty => some (if other.is_empty then .eq else .lt)
  | .Text text =>
    match other.as_str with
    | some o => some ((str_cmp text o).swap)
    | none => some .gt
  | .Number value =>
    match other with
    | .Empty => some .gt
    | .Text _ => some .lt
    | .Number o => some (int_cmp value o)
    | .FloatNumber o _ => some (rat_cmp (value : ℚ) o)
    | .Formula of =>
      match of.value with
      | .String _ => some .lt
      | .Number o => some (int_cmp value o)
      | .FloatNumber o => some (rat_cmp (value : ℚ) o)
      | .Empty => some .gt
      | .Error => some .gt
  | .FloatNumber value _ =>
    match other with
    | .Empty => some .gt
    | .Text _ => some .lt
    | .Number o => some (rat_cmp value (o : ℚ))
    | .FloatNumber o _ => some (rat_cmp value o)
    | .Formula of =>
      match of.value with
      | .String _ => some .lt
      | .Number o => some (rat_cmp value (o : ℚ))
      | .FloatNumber o => some (rat_cmp value o)
      | .Empty => some .gt
      | .Error => some .gt
  | .Formula f =>
    match f.value with
    | .String text =>
      match other.as_str with
      | some o => some ((str_cmp text o).swap)
      | none => some .gt
    | .Number value =>
      match other with
      | .Empty => some .gt
      | .Text _ => some .lt
      | .Number o => some (int_cmp value o)
      | .FloatNumber o _ => some (rat_cmp (value : ℚ) o)
      | .Formula of =>
        match of.value with
        | .String _ => some .lt
        | .Number o => some (int_cmp value o)
        | .FloatNumber o => some (rat_cmp (value : ℚ) o)
        | .Empty => some .gt
        | .Error => some .gt
    | .FloatNumber value =>
      match other with
      | .Empty => some .gt
      | .Text _ => some .lt
      | .Number o => some (rat_cmp value (o : ℚ))
      | .FloatNumber o _ => some (rat_cmp value o)
      | .Formula of =>
        match of.value with
        | .String _ => some .lt
        | .Number o => some (rat_cmp value (o : ℚ))
        | .FloatNumber o => some (rat_cmp value o)
        | .Empty => some .gt
        | .Error => some .gt
    | .Empty => some .lt
    | .Error => some .lt

/-- `Ord for CellContent`: `self.partial_cmp(other).unwrap_or(Equal)`. -/
def CellContent.cmp (a b : CellContent) : Ordering :=
  (a.cmp_opt b).getD .eq

/-- `Formula::new_at`: an all-empty formula seeded at `position`. -/
def Formula.new_at (position : CellPosition) : Formula :=
  { position := position, raw := [], parsed := [], references := [], value := .Empty }

/-- `Formula::push_char` (formula.rs, lines 77-80): the source pushes `ch`
onto `raw` and then unconditionally hits
`todo!("Update referenced. ...")`, which panics.  The observable behaviour
is therefore a panic for every input, modelled as `none`. -/
def Formula.push_char (_f : Formula) (_ch : Char) : Option Formula :=
  none

/-- Decimal rendering of the `ℚ` float model; stands in for Rust's `f64`
`Display`.  It is only used on the `FloatNumber → Text` coercion path of
`input_char`, which no claim exercises. -/
def rat_repr (q : ℚ) : List Char :=
  (Int.repr q.num).toList ++ '/' :: (Nat.repr q.den).toList

/-- `CellContent::input_char` (cell_content.rs, lines 67-104).  `none`
models a panic (only reachable through `Formula::push_char`). -/
def CellContent.input_char (self : CellContent) (ch : Char) (position : CellPosition) :
    Option CellContent :=
  match self with
  | .Empty =>
    some (match rust_to_digit10 ch with
      | some digit => .Number (digit : Int)
      | none =>
        match ch with
        | '=' => .Formula (Formula.new_at position)
        | '.' => .FloatNumber 0 1
        | _ => .Text [ch])
  | .Text it => some (.Text (it ++ [ch]))
  | .Formula f => (f.push_char ch).map .Formula
  | .Number it =>
    if is_ascii_digit ch then
      some (.Number (it * 10 + ((ch.toNat : Int) - 48)))
    else if ch = '.' then
      some (.FloatNumber (it : ℚ) 1)
    else
      some (.Text ((Int.repr it).toList ++ [ch]))
  | .FloatNumber it digit_count =>
    if is_ascii_digit ch then
      some (.FloatNumber (it + ((ch.toNat : ℚ) - 48) / (10 : ℚ) ^ digit_count)
        (digit_count + 1))
    else
      some (.Text (rat_repr it ++ [ch]))

/-- A concrete formula cell used for the C3 counterexample. -/
def c3_formula : Formula :=
  { position := ⟨0, 0⟩, raw := "A1".toList, parsed := "A1".toList,
    references := [.Cell ⟨0, 1⟩], value := .Empty }

/-- The token-separator set of `Formula::parse_raw` (formula.rs, line 209). -/
def SEPERATORS : List Char := " ()*-+/,.;[]%!".toList

/-- One `"{column}[{start}:{stop}]"` slice of the Python code emitted for a
range reference. -/
def slice_code (x r0 r1 : Nat) : List Char :=
  to_column_name x ++ '[' :: (Nat.repr r0).toList ++ ':' :: (Nat.repr r1).toList ++ [']']

/-- The token-completion block shared by the separator case and the
end-of-input case of `Formula::parse_raw` (formula.rs, lines 220-267 and
276-323): returns the text appended to the expression and the references
appended to the list, or `none` for the `todo!()` panic (range whose second
endpoint is neither a cell name nor a row number).  `size.1` is the grid
width (Rust `size.0`). -/
def flush_token (size : Nat × Nat) (last_position : Option (Nat × Nat))
    (variable_buffer : List Char) : Option (List Char × List CellReference) :=
  match last_position with
  | some lp =>
    match cell_name_to_position variable_buffer with
    | some np =>
      some (List.intercalate " + ".toList
          ((List.range' lp.1 (np.1 + 1 - lp.1)).map (fun x => slice_code x lp.2 (np.2 + 1))),
        [.Cell ⟨lp.1, lp.2⟩, .Cell ⟨np.1, np.2⟩])
    | none =>
      match parse_usize variable_buffer with
      | some row =>
        some (slice_code lp.1 lp.2 (row + 1), [.Cell ⟨lp.1, lp.2⟩, .Row row])
      | none => none
  | none =>
    let refs : List CellReference :=
      match cell_name_to_position variable_buffer with
      | some cell => [.Cell ⟨cell.1, cell.2⟩]
      | none =>
        match column_name_to_index variable_buffer with
        | some column => if column < size.1 then [.Column column] else []
        | none => []
    some (variable_buffer, refs)

/-- The scanning state of `Formula::parse_raw`. -/
structure RawParseAcc where
  variable_buffer : List Char
  parsed : List Char
  references : List CellReference
  last_position : Option (Nat × Nat)

/-- One character of the `Formula::parse_raw` scan (formula.rs,
lines 215-275). -/
def parse_raw_step (size : Nat × Nat) (st : RawParseAcc) (ch : Char) : Option RawParseAcc :=
  if ch = ':' then
    some { st with last_position := cell_name_to_position st.variable_buffer,
                   variable_buffer := [] }
  else if ch ∈ SEPERATORS then
    (flush_token size st.last_position st.variable_buffer).map (fun tr =>
      let parsed := st.parsed ++ tr.1
      let parsed := if parsed ≠ [] ∨ rust_is_whitespace ch = false then parsed ++ [ch] else parsed
      { variable_buffer := [], parsed := parsed,
        references := st.references ++ tr.2, last_position := none })
  else
    some { st with variable_buffer := st.variable_buffer ++ [ch] }

/-- `Formula::parse_raw` (formula.rs, lines 208-327): scans the raw text
into the Python expression plus the ordered reference list.  `none` models
the `todo!()` panics. -/
def parse_raw (raw : List Char) (size : Nat × Nat) :
    Option (List Char × List CellReference) := do
  let st ← raw.foldlM (parse_raw_step size) ⟨[], [], [], none⟩
  let tr ← flush_token size st.last_position st.variable_buffer
  some (st.parsed ++ tr.1, st.references ++ tr.2)

/-- Rust `str::find` for a literal pattern: index of the first occurrence of
`needle` in the haystack.  (Byte indices and character indices agree here:
every pattern searched for is ASCII and indices are only used to slice at
the match.) -/
def find_sub (needle : List Char) : List Char → Option Nat
  | [] => if needle.isPrefixOf ([] : List Char) then some 0 else none
  | c :: t =>
    if needle.isPrefixOf (c :: t) then some 0
    else (find_sub needle t).map (· + 1)

/-- Rust `as usize` applied to an `isize`: reduction modulo `2^64`
(release-mode two's-complement wrap). -/
def usize_cast (i : Int) : Nat :=
  (i.emod (2 ^ 64)).toNat

/-- The per-reference shift of `Formula::moved_to` (formula.rs,
lines 167-188): the shifted reference, its old display text and its new
display text. -/
def shift_reference (x_offset y_offset : Int) :
    CellReference → CellReference × List Char × List Char
  | .Cell c =>
    let c' : CellPosition := ⟨usize_cast (c.x + x_offset), usize_cast (c.y + y_offset)⟩
    (.Cell c', c.name, c'.name)
  | .Row r =>
    let r' := usize_cast (r + y_offset)
    (.Row r', (Nat.repr r).toList, (Nat.repr r').toList)
  | .Column c =>
    let c' := usize_cast (c + x_offset)
    (.Column c', to_column_name c, to_column_name c')

/-- `Formula::moved_to` (formula.rs, lines 161-206).  Walks the reference
list in order; for each reference, finds the next occurrence of its old
text starting at the monotone `cursor` (the cursor is left at the start of
the replacement, exactly as in the source) and splices in the new text.
Afterwards re-parses the rewritten raw text and asserts the recomputed
reference list equals the shifted one.  `none` models the `unwrap` panic of
a failed `find` and the failed `assert_eq!`. -/
def Formula.moved_to (f : Formula) (position : CellPosition) (size : Nat × Nat) :
    Option Formula := do
  let x_offset : Int := (position.x : Int) - (f.position.x : Int)
  let y_offset : Int := (position.y : Int) - (f.position.y : Int)
  let acc ← f.references.foldlM
    (fun (acc : List CellReference × List Char × Nat) r => do
      let (refs, raw, cursor) := acc
      let (r', old, new) := shift_reference x_offset y_offset r
      let idx ← find_sub old (raw.drop cursor)
      let cursor := cursor + idx
      let raw := raw.take cursor ++ new ++ raw.drop (cursor + old.length)
      some (refs ++ [r'], raw, cursor))
    ([], f.raw, 0)
  let (references, raw, _cursor) := acc
  let pr ← parse_raw raw size
  if pr.2 = references then
    some { position := position, raw := raw, parsed := pr.1,
           references := references, value := .Empty }
  else
    none

/-- Split on `'\n'`, never returning the empty list. -/
def split_newlines : List Char → List (List Char)
  | [] => [[]]
  | c :: rest =>
    match split_newlines rest with
    | h :: t => if c = '\n' then [] :: h :: t else (c :: h) :: t
    | [] => [[c]]

/-- Strip one trailing `'\r'` (Rust `str::lines` treats `\r\n` as one
terminator). -/
def strip_cr (l : List Char) : List Char :=
  if l.getLast? = some '\r' then l.dropLast else l

/-- Rust `str::lines`: split on `'\n'`; every segment except the final one
was `'\n'`-terminated and has a preceding `'\r'` stripped; a final empty
segment (trailing newline, or the empty string) yields no line, and a final
non-empty segment is kept verbatim (an unterminated `'\r'` is *not*
stripped). -/
def rust_lines (s : List Char) : List (List Char) :=
  let parts := split_newlines s
  let init := parts.dropLast.map strip_cr
  match parts.getLast? with
  | some [] => init
  | some l => init ++ [l]
  | none => init

/-- `CsvParseState` (tabelle-core/src/csv.rs). -/
inductive CsvParseState where
  | NewCell
  | InCell
  | InCellEscaped
  | InCellEndEscape
deriving DecidableEq

/-- `CsvParseError` (tabelle-core/src/csv.rs). -/
inductive CsvParseError where
  | NoSuccessfullParse (e : CsvParseError)
  | InvalidEscaping
  | NoCellsFound (w h : Nat)
  | UnfinishedEscaping
deriving DecidableEq

/-- One character of the sizing pass (csv.rs, lines 67-108): the state
transition of the `match ch` block followed by the per-character
`match state` check that reports `UnfinishedEscaping` whenever the machine
is (still or newly) in `InCellEscaped`.  Returns the new state and the
updated field count of the current line. -/
def size_char (sep : Char) (acc : CsvParseState × Nat) (ch : Char) :
    Except CsvParseError (CsvParseState × Nat) := do
  let (state, current_width) := acc
  let stepped : Except CsvParseError (CsvParseState × Nat) :=
    if ch = '"' ∧ state ≠ .InCell then
      match state with
      | .InCellEndEscape | .NewCell => .ok (.InCellEscaped, current_width)
      | .InCellEscaped => .ok (.InCellEndEscape, current_width)
      | .InCell => .ok (.InCell, current_width) -- unreachable: excluded by the guard
    else if ch = sep ∧ (state = .InCell ∨ state = .InCellEndEscape) then
      .ok (.NewCell, current_width + 1)
    else
      match state with
      | .NewCell => .ok (.InCell, current_width)
      | .InCell => .ok (.InCell, current_width)
      | .InCellEscaped => .ok (.InCellEscaped, current_width)
      | .InCellEndEscape => .error .InvalidEscaping
  let (state, current_width) ← stepped
  if state = .InCellEscaped then .error .UnfinishedEscaping
  else .ok (state, current_width)

/-- `parse_size_of_csv` (csv.rs, lines 59-119).  The escaping state is
carried across lines, exactly as in the source, where `state` lives outside
the line loop. -/
def parse_size_of_csv (s : List Char) (sep : Char) :
    Except CsvParseError (Nat × Nat) := do
  let acc ← (rust_lines s).foldlM
    (fun (acc : Nat × Nat × CsvParseState) line => do
      let (width, height, state) := acc
      let current_width : Nat := if line.isEmpty then 0 else 1
      let (state, current_width) ← line.foldlM (size_char sep) (state, current_width)
      let width := if width < current_width then current_width else width
      let height := height + (if 0 < current_width then 1 else 0)
      .ok (width, height, state))
    (0, 0, CsvParseState.NewCell)
  let (width, height, _state) := acc
  if width = 0 ∨ height = 0 then .error (.NoCellsFound width height)
  else .ok (width, height)

/-- `CsvFile` (csv.rs). -/
structure CsvFile where
  cells : List (List Char)
  width : Nat
  height : Nat
  seperator : Char
deriving DecidableEq

/-- One character of the parse pass (csv.rs, lines 134-176), accumulating
the current cell's text and the finished cells. -/
def csv_char (sep : Char) (acc : CsvParseState × List Char × List (List Char)) (ch : Char) :
    Except CsvParseError (CsvParseState × List Char × List (List Char)) :=
  let (state, current_cell, cells) := acc
  if ch = '"' ∧ state ≠ .InCell then
    match state with
    | .InCellEndEscape => .ok (.InCellEscaped, current_cell ++ ['"'], cells)
    | .NewCell => .ok (.InCellEscaped, current_cell, cells)
    | .InCellEscaped => .ok (.InCellEndEscape, current_cell, cells)
    | .InCell => .ok (.InCell, current_cell, cells) -- unreachable: excluded by the guard
  else if ch = sep ∧ (state = .InCell ∨ state = .InCellEndEscape) then
    .ok (.NewCell, [], cells ++ [current_cell])
  else
    match state with
    | .NewCell => .ok (.InCell, current_cell ++ [ch], cells)
    | .InCell => .ok (.InCell, current_cell ++ [ch], cells)
    | .InCellEscaped => .ok (.InCellEscaped, current_cell ++ [ch], cells)
    | .InCellEndEscape => .error .InvalidEscaping

/-- `parse_csv` (csv.rs, lines 121-191): the parse pass with the winning
separator.  At each end of line the current cell is pushed unconditionally
and the row is right-padded with empty cells up to `cell_count + width`.
The outer `Option` models the `assert_eq!(cells.len(), width * height)`
before returning: `none` is the panic of a violated assertion. -/
def parse_csv (s : List Char) (seperator : Char) (width height : Nat) :
    Option (Except CsvParseError CsvFile) :=
  let run : Except CsvParseError (CsvParseState × List Char × List (List Char)) :=
    (rust_lines s).foldlM
      (fun (acc : CsvParseState × List Char × List (List Char)) line => do
        let (state, current_cell, cells) := acc
        let cell_count := cells.length
        let (state, current_cell, cells) ← line.foldlM (csv_char seperator)
          (state, current_cell, cells)
        let cells := cells ++ [current_cell]
        let cells := cells ++ List.replicate (cell_count + width - cells.length) []
        .ok (state, [], cells))
      (.NewCell, [], [])
  match run with
  | .error e => some (.error e)
  | .ok (_state, _current_cell, cells) =>
    if cells.length = width * height then
      some (.ok { cells := cells, width := width, height := height, seperator := seperator })
    else
      none

/-- `KNOWN_SEPERATORS` (csv.rs, line 14). -/
def KNOWN_SEPERATORS : List Char := [',', ';', '\t']

/-- Lexicographic comparison of `(width, height)` pairs (Rust tuple `cmp`). -/
def pair_cmp (a b : Nat × Nat) : Ordering :=
  (nat_cmp a.1 b.1).then (nat_cmp a.2 b.2)

/-- The comparator passed to `sort_unstable_by` in `CsvFile::from_str`
(csv.rs, lines 32-37): `Ok` results are ordered by *descending*
`(width, height)`, errors after every success, errors tied. -/
def size_cmp :
    Except CsvParseError (Char × Nat × Nat) → Except CsvParseError (Char × Nat × Nat) →
      Ordering
  | .ok a, .ok b => pair_cmp (b.2.1, b.2.2) (a.2.1, a.2.2)
  | .ok _, .error _ => .lt
  | .error _, .ok _ => .gt
  | .error _, .error _ => .eq

/-- The sizing results for the three candidate separators
(csv.rs, lines 28-31). -/
def csv_size_results (s : List Char) : List (Except CsvParseError (Char × Nat × Nat)) :=
  KNOWN_SEPERATORS.map (fun sep =>
    (parse_size_of_csv s sep).map (fun wh => (sep, wh.1, wh.2)))

/-- The sorted result vector of `CsvFile::from_str`.  The source's
`sort_unstable_by` produces *some* permutation sorted by `size_cmp`; it is
modelled by insertion sort, which produces such a permutation. -/
def sorted_size_results (s : List Char) : List (Except CsvParseError (Char × Nat × Nat)) :=
  List.insertionSort (fun a b => size_cmp a b ≠ Ordering.gt) (csv_size_results s)

/-- `size[0]` of `CsvFile::from_str` when it is a success: the separator the
parse pass is run with, together with its `(width, height)`. -/
def selected_separator (s : List Char) : Option (Char × Nat × Nat) :=
  match (sorted_size_results s).head? with
  | some (.ok v) => some v
  | _ => none

/-- `Cell` (tabelle-core/src/cells.rs): content plus stored position. -/
structure Cell where
  content : CellContent
  position : CellPosition
deriving DecidableEq

/-- `Spreadsheet` (tabelle-core/src/lib.rs).  `PathBuf` is modelled as a
character list. -/
structure Spreadsheet where
  current_cell : CellPosition
  width : Nat
  height : Nat
  cells : List Cell
  column_widths : List Nat
  used_cells : CellPosition
  fixed_rows : Nat
  path : Option (List Char)
deriving DecidableEq

/-- `Spreadsheet::move_cursor` (lib.rs, lines 238-262).  `result` starts
`true` and is set `false` whenever a coordinate is clamped.  The
`self.width - 1` / `self.height - 1` expressions underflow when the
dimension is zero (a panic in a debug build), modelled as `none`. -/
def Spreadsheet.move_cursor (s : Spreadsheet) (dx dy : Int) : Option (Spreadsheet × Bool) :=
  let x : Int := (s.current_cell.x : Int) + dx
  let y : Int := (s.current_cell.y : Int) + dy
  let xr : Option (Nat × Bool) :=
    if x < 0 then some (0, false)
    else if (s.width : Int) ≤ x then
      if s.width = 0 then none else some (s.width - 1, false)
    else some (x.toNat, true)
  let yr : Option (Nat × Bool) :=
    if y < 0 then some (0, false)
    else if (s.height : Int) ≤ y then
      if s.height = 0 then none else some (s.height - 1, false)
    else some (y.toNat, true)
  match xr, yr with
  | some (xv, xb), some (yv, yb) =>
    some ({ s with current_cell := ⟨xv, yv⟩ }, xb && yb)
  | _, _ => none

/-- The default cell used to make row indexing total; hypotheses keep every
use in bounds (the source's `r[column]` would panic out of bounds). -/
def default_cell : Cell := { content := .Empty, position := ⟨0, 0⟩ }

/-- The slices produced by `SpreadsheetRowIter` (lib.rs, lines 417-429):
`height` consecutive `width`-sized chunks of the cell vector. -/
def as_rows_go (w : Nat) : Nat → List Cell → List (List Cell)
  | 0, _ => []
  | n + 1, cs => cs.take w :: as_rows_go w n (cs.drop w)

/-- `Spreadsheet::as_rows`. -/
def Spreadsheet.as_rows (s : Spreadsheet) : List (List Cell) :=
  as_rows_go s.width s.height s.cells

/-- The position-rewriting loop at the end of `Spreadsheet::sort_column`
(lib.rs, lines 384-386): `cell.position = CellPosition::from_index(index, width)`
for every cell, in enumeration order. -/
def set_positions (w : Nat) : Nat → List Cell → List Cell
  | _, [] => []
  | i, c :: cs =>
    { c with position := CellPosition.from_index i w } :: set_positions w (i + 1) cs

/-- The sort key of `sort_column`: `&r[column].content`. -/
def sort_key (column : Nat) (r : List Cell) : CellContent :=
  (r.getD column default_cell).content

/-- Row comparison corresponding to ascending order under `Ord::cmp` of the
keys (`sort_by_cached_key` sorts ascending w.r.t. it). -/
def row_le (column : Nat) (r1 r2 : List Cell) : Prop :=
  CellContent.cmp (sort_key column r1) (sort_key column r2) ≠ .gt

instance (column : Nat) : DecidableRel (row_le column) := fun r1 r2 =>
  inferInstanceAs (Decidable (CellContent.cmp (sort_key column r1) (sort_key column r2) ≠ .gt))

/-- `row_le` on the content image of rows (positions are irrelevant to the
key, so the sortedness statements are phrased over contents). -/
def content_row_le (column : Nat) (r1 r2 : List CellContent) : Prop :=
  CellContent.cmp (r1.getD column .Empty) (r2.getD column .Empty) ≠ .gt

instance (column : Nat) : DecidableRel (content_row_le column) := fun r1 r2 =>
  inferInstanceAs
    (Decidable (CellContent.cmp (r1.getD column .Empty) (r2.getD column .Empty) ≠ .gt))

/-- `Spreadsheet::sort_column` (lib.rs, lines 372-387): the rows after the
first `fixed_rows` are sorted ascending by the column-`column` key
(`sort_by_cached_key`, modelled by insertion sort — a stable sort, like the
source's), the sorted block is reversed, the fixed rows are re-attached in
front, and every cell's position is rewritten to its row-major index. -/
def Spreadsheet.sort_column (s : Spreadsheet) (column : Nat) : Spreadsheet :=
  let rows := s.as_rows
  let sorted := List.insertionSort (row_le column) (rows.drop s.fixed_rows)
  { s with cells :=
      set_positions s.width 0 ((rows.take s.fixed_rows ++ sorted.reverse).flatten) }

/-- The C7 counterexample input: a single line that contains exactly
4 commas, 5 semicolons and 1 tab. -/
def c7_cex_input : List Char := "a,b,c,d,e;;;;;\tf".toList

/-- The representative C7 input: two identical lines, each containing
4 commas, 5 semicolons and 1 tab, pairwise non-adjacent and none at a line
edge, so the field counts are 5, 6 and 2 respectively. -/
def c7_input : List Char := "a,b,c,d,e;f;g;h;i;j\tk\na,b,c,d,e;f;g;h;i;j\tk".toList

/-- A concrete 2×2 grid with the cursor at the origin, for C9. -/
def c9_grid : Spreadsheet :=
  { current_cell := ⟨0, 0⟩, width := 2, height := 2,
    cells := [], column_widths := [10, 10], used_cells := ⟨0, 0⟩,
    fixed_rows := 0, path := none }

/-- The C8 counterexample grid: one column, two movable rows whose keys are
`Text "b"` and a formula whose value is `String "a"`.  The comparator
declares each *greater* than the other (`Text` vs non-`Text` is `Greater`;
the formula's string `"a"` against `"b"` compares `lt` and is reversed to
`gt`), so no arrangement of the two rows is ascending. -/
def c8_cex_formula : Formula :=
  { position := ⟨0, 1⟩, raw := [], parsed := [], references := [],
    value := .String "a".toList }

def c8_cex_grid : Spreadsheet :=
  { current_cell := ⟨0, 0⟩, width := 1, height := 2,
    cells :=
      [{ content := .Text "b".toList, position := ⟨0, 0⟩ },
       { content := .Formula c8_cex_formula, position := ⟨0, 1⟩ }],
    column_widths := [10], used_cells := ⟨0, 0⟩, fixed_rows := 0, path := none }

/-- The C8 witness grid: one column of the numbers 3, 1, 2, no fixed rows. -/
def c8_witness_grid : Spreadsheet :=
  { current_cell := ⟨0, 0⟩, width := 1, height := 3,
    cells :=
      [{ content := .Number 3, position := ⟨0, 0⟩ },
       { content := .Number 1, position := ⟨0, 1⟩ },
       { content := .Number 2, position := ⟨0, 2⟩ }],
    column_widths := [10], used_cells := ⟨0, 0⟩, fixed_rows := 0, path := none }

/-- The C1 failing input: the formula `=A1+B1` at position `(0,0)`, exactly
as `Formula::parse_raw` produces it (its references are all of the `Cell`
kind and in left-to-right order). -/
def c1_formula : Formula :=
  { position := ⟨0, 0⟩, raw := "A1+B1".toList, parsed := "A1+B1".toList,
    references := [.Cell ⟨0, 1⟩, .Cell ⟨1, 1⟩], value := .Empty }

theorem to_column_name_go_irrel :
    ∀ i f g : Nat, i ≤ f → i ≤ g → to_column_name_go f i = to_column_name_go g i := by
  intro i
  induction i using Nat.strong_induction_on with
  | _ i ih =>
    intro f g hf hg
    match f, g with
    | 0, 0 => rfl
    | 0, g + 1 =>
      have : i < 26 := by omega
      simp [to_column_name_go, this]
    | f + 1, 0 =>
      have : i < 26 := by omega
      simp [to_column_name_go, this]
    | f + 1, g + 1 =>
      by_cases h : i < 26
      · simp [to_column_name_go, h]
      · have hi : 0 < i := by omega
        have hdiv : i / 26 < i := Nat.div_lt_self hi (by omega)
        simp only [to_column_name_go, if_neg h]
        rw [ih (i / 26) hdiv f g (by omega) (by omega)]

/-- The recurrence satisfied by `to_column_name`. -/
theorem to_column_name_unfold (i : Nat) :
    to_column_name i =
      if i < 26 then [letter_at i]
      else to_column_name (i / 26) ++ [letter_at (i % 26)] := by
  unfold to_column_name
  match i with
  | 0 => simp [to_column_name_go]
  | n + 1 =>
    by_cases h : n + 1 < 26
    · simp [to_column_name_go, h]
    · have hdiv : (n + 1) / 26 < n + 1 := Nat.div_lt_self (by omega) (by omega)
      simp only [to_column_name_go, if_neg h]
      rw [to_column_name_go_irrel ((n + 1) / 26) n ((n + 1) / 26) (by omega) (by omega)]

theorem column_name_to_index_go_append (acc : Nat) (xs ys : List Char) :
    column_name_to_index_go acc (xs ++ ys) =
      (column_name_to_index_go acc xs).bind (fun a => column_name_to_index_go a ys) := by
  induction xs generalizing acc with
  | nil => simp [column_name_to_index_go]
  | cons c cs ih =>
    by_cases h : is_ascii_alphabetic c
    · simp [column_name_to_index_go, h, ih]
    · simp [column_name_to_index_go, h]

theorem letter_at_decode : ∀ i < 26,
    is_ascii_alphabetic (letter_at i) = true ∧
      (to_ascii_uppercase (letter_at i)).toNat - 65 = i := by
  decide

theorem column_name_to_index_go_to_column_name (i : Nat) :
    ∀ acc : Nat, column_name_to_index_go acc (to_column_name i) =
      some (acc * 26 ^ (to_column_name i).length + i) := by
  induction i using Nat.strong_induction_on with
  | _ i ih =>
    intro acc
    rw [to_column_name_unfold i]
    by_cases h : i < 26
    · obtain ⟨halpha, hval⟩ := letter_at_decode i h
      simp [if_pos h, column_name_to_index_go, halpha, hval]
    · have hi : 0 < i := by omega
      have hdiv : i / 26 < i := Nat.div_lt_self hi (by omega)
      have hmod : i % 26 < 26 := Nat.mod_lt i (by omega)
      obtain ⟨halpha, hval⟩ := letter_at_decode (i % 26) hmod
      rw [if_neg h, column_name_to_index_go_append, ih (i / 26) hdiv acc]
      have hstep : ∀ a : Nat, column_name_to_index_go a [letter_at (i % 26)] =
          some (a * 26 + i % 26) := by
        intro a
        simp [column_name_to_index_go, halpha, hval]
      simp only [Option.some_bind, hstep, List.length_append, List.length_cons,
        List.length_nil, Nat.zero_add, Nat.pow_succ]
      have hdm : 26 * (i / 26) + i % 26 = i := Nat.div_add_mod i 26
      congr 1
      have hB : (acc * 26 ^ (to_column_name (i / 26)).length + i / 26) * 26 + i % 26 =
          acc * (26 ^ (to_column_name (i / 26)).length * 26) + (26 * (i / 26) + i % 26) := by
        ring
      rw [hB, hdm]

theorem to_column_name_ne_nil (i : Nat) : to_column_name i ≠ [] := by
  rw [to_column_name_unfold i]
  by_cases h : i < 26 <;> simp [h]

/-- C6.  `column_name_to_index(to_column_name(i))` succeeds and returns `i`
for every unsigned index `i`: the base-26 digit encoding round-trips through
name generation and case-insensitive parsing. -/
theorem c6_column_name_roundtrip (i : Nat) :
    column_name_to_index (to_column_name i) = some i := by
  unfold column_name_to_index
  rw [if_neg (by simpa using to_column_name_ne_nil i)]
  rw [column_name_to_index_go_to_column_name i 0]
  simp

/-- C3, counterexample.  The claim states that `input_char` on a `Formula`
cell appends the character to the raw buffer and completes normally.  In the
source, `CellContent::input_char` delegates to `Formula::push_char`, which
pushes the character and then hits `todo!(...)` — a panic (`none` in this
model) — so the operation never completes normally, already at this
concrete input. -/
theorem c3_input_char_formula_panics_cex :
    CellContent.input_char (.Formula c3_formula) 'a' ⟨0, 0⟩ = none := rfl

/-- C3, amended.  For every cell whose content is a `Formula` and every
input character, `input_char` pushes the character onto the raw buffer and
then panics at `Formula::push_char`'s `todo!` — it never completes
normally, and the parsed expression and reference list are never updated
because no updated cell content is ever produced. -/
theorem c3_input_char_formula_never_completes (f : Formula) (ch : Char) (p : CellPosition) :
    CellContent.input_char (.Formula f) ch p = none := rfl

theorem sorted_orderedInsert_local {α : Type _} (r : α → α → Prop) [DecidableRel r] (a : α) :
    ∀ l : List α, l.Sorted r →
      (∀ b ∈ l, r a b ∨ r b a) →
      (∀ b ∈ l, ∀ c ∈ l, r a b → r b c → r a c) →
      (l.orderedInsert r a).Sorted r := by
  intro l
  induction l with
  | nil => intro _ _ _; simp [List.orderedInsert, List.Sorted]
  | cons y ys ih =>
    intro hs htot htr
    rw [List.orderedInsert]
    obtain ⟨hy, hys⟩ := List.sorted_cons.mp hs
    split_ifs with hay
    · rw [List.sorted_cons]
      refine ⟨?_, hs⟩
      intro b hb
      rcases List.mem_cons.mp hb with rfl | hb
      · exact hay
      · exact htr y (List.mem_cons_self y ys) b (List.mem_cons_of_mem y hb) hay (hy b hb)
    · rw [List.sorted_cons]
      constructor
      · intro b hb
        rcases (List.mem_orderedInsert r).mp hb with hba | hb
        · subst hba
          rcases htot y (List.mem_cons_self y ys) with h | h
          · exact absurd h hay
          · exact h
        · exact hy b hb
      · exact ih hys (fun b hb => htot b (List.mem_cons_of_mem y hb))
          (fun b hb c hc => htr b (List.mem_cons_of_mem y hb) c (List.mem_cons_of_mem y hc))

theorem sorted_insertionSort_local {α : Type _} (r : α → α → Prop) [DecidableRel r] :
    ∀ l : List α,
      (∀ a ∈ l, ∀ b ∈ l, r a b ∨ r b a) →
      (∀ a ∈ l, ∀ b ∈ l, ∀ c ∈ l, r a b → r b c → r a c) →
      (List.insertionSort r l).Sorted r := by
  intro l
  induction l with
  | nil => intro _ _; simp [List.Sorted]
  | cons a l ih =>
    intro htot htr
    rw [List.insertionSort]
    have hmem : ∀ x ∈ List.insertionSort r l, x ∈ a :: l := fun x hx =>
      List.mem_cons_of_mem a ((List.perm_insertionSort r l).mem_iff.mp hx)
    refine sorted_orderedInsert_local r a (List.insertionSort r l)
      (ih (fun x hx y hy => htot x (List.mem_cons_of_mem a hx) y (List.mem_cons_of_mem a hy))
          (fun x hx y hy z hz => htr x (List.mem_cons_of_mem a hx) y (List.mem_cons_of_mem a hy)
            z (List.mem_cons_of_mem a hz)))
      (fun b hb => htot a (List.mem_cons_self a l) b (hmem b hb))
      (fun b hb c hc => htr a (List.mem_cons_self a l) b (hmem b hb) c (hmem c hc))

theorem pair_cmp_not_gt_iff (p q : Nat × Nat) :
    pair_cmp p q ≠ .gt ↔ p.1 < q.1 ∨ (p.1 = q.1 ∧ p.2 ≤ q.2) := by
  unfold pair_cmp nat_cmp Ordering.then
  split_ifs <;> simp_all <;> omega

theorem size_cmp_refl (a : Except CsvParseError (Char × Nat × Nat)) :
    size_cmp a a ≠ .gt := by
  match a with
  | .error _ => simp [size_cmp]
  | .ok v => rw [size_cmp]; rw [pair_cmp_not_gt_iff]; omega

theorem size_cmp_total (a b : Except CsvParseError (Char × Nat × Nat)) :
    size_cmp a b ≠ .gt ∨ size_cmp b a ≠ .gt := by
  match a, b with
  | .error _, .error _ => left; simp [size_cmp]
  | .error _, .ok _ => right; simp [size_cmp]
  | .ok _, .error _ => left; simp [size_cmp]
  | .ok v, .ok w =>
    rw [size_cmp, size_cmp, pair_cmp_not_gt_iff, pair_cmp_not_gt_iff]
    omega

theorem size_cmp_trans (a b c : Except CsvParseError (Char × Nat × Nat)) :
    size_cmp a b ≠ .gt → size_cmp b c ≠ .gt → size_cmp a c ≠ .gt := by
  match a, b, c with
  | .error _, .error _, .error _ => intro _ _; simp [size_cmp]
  | .error _, .error _, .ok _ => intro _ h; exact absurd rfl h
  | .error _, .ok _, _ => intro h _; exact absurd rfl h
  | .ok _, _, .error _ => intro _ _; simp [size_cmp]
  | .ok _, .error _, .ok _ => intro _ h; exact absurd rfl h
  | .ok u, .ok v, .ok w =>
    rw [size_cmp, size_cmp, size_cmp, pair_cmp_not_gt_iff, pair_cmp_not_gt_iff,
      pair_cmp_not_gt_iff]
    omega

theorem sorted_size_results_sorted (s : List Char) :
    (sorted_size_results s).Sorted (fun a b => size_cmp a b ≠ Ordering.gt) := by
  exact sorted_insertionSort_local _ (csv_size_results s)
    (fun a _ b _ => size_cmp_total a b)
    (fun a _ b _ c _ => size_cmp_trans a b c)

theorem mem_sorted_size_results (s : List Char) {sep : Char} {w h : Nat}
    (hmem : sep ∈ KNOWN_SEPERATORS) (hok : parse_size_of_csv s sep = .ok (w, h)) :
    (Except.ok (sep, w, h) : Except CsvParseError (Char × Nat × Nat)) ∈
      sorted_size_results s := by
  apply (List.perm_insertionSort _ (csv_size_results s)).mem_iff.mpr
  apply List.mem_map.mpr
  exact ⟨sep, hmem, by rw [hok]; rfl⟩

/-- C2.  The claim states `UnfinishedEscaping` is reported only when a line
*ends* inside a quoted span, so an input whose quotes are matched on the
same line must not produce it.  In the source the `match state` check sits
inside the character loop (csv.rs, lines 102-107), so it fires right after
the *opening* quote of any quoted field: the single line `"a"` — whose one
opening quote is closed on the same line — is rejected with
`UnfinishedEscaping` by the sizing pass, for any separator. -/
theorem c2_sizing_rejects_quoted_field :
    parse_size_of_csv "\"a\"".toList ',' = .error .UnfinishedEscaping := rfl

/-- C5.  For the input `"a\n\nb"` with separator `','` the sizing pass
succeeds with `(width, height) = (1, 2)` — the empty middle line starts
with `current_width = 0` and is not counted towards the height — but the
parse pass pushes one cell for *every* line, empty lines included, so it
produces 3 fields; the `assert_eq!(cells.len(), width * height)` at
csv.rs line 184 fails (the outer `none`), violating the claimed
post-condition. -/
theorem c5_parse_csv_assert_violated :
    parse_size_of_csv "a\n\nb".toList ',' = .ok (1, 2) ∧
      parse_csv "a\n\nb".toList ',' 1 2 = none :=
  ⟨rfl, rfl⟩

/-- C7, counterexample.  The claim's instance says any input whose every
line contains 4 commas, 5 semicolons and 1 tab selects the semicolon
interpretation.  Here every (the only) line has exactly those counts, yet
the comma interpretation is selected: the five semicolons are adjacent, and
a separator read in the `NewCell` state is treated as cell *content*, so
the semicolon sizing finds only 4 fields while the comma sizing finds 5. -/
theorem c7_comma_selected_despite_more_semicolons :
    (c7_cex_input.count ',' = 4 ∧ c7_cex_input.count ';' = 5 ∧
        c7_cex_input.count '\t' = 1) ∧
      selected_separator c7_cex_input = some (',', 5, 1) :=
  ⟨by decide, rfl⟩

/-- C7, amended.  Separator auto-selection ranks the sizing results of
comma, semicolon and tab by `(width, height)` descending lexicographically
(part 1), erroring separators rank last (part 2: if any separator sizes
successfully, a successful one is selected), and for the representative
input whose every line yields 5 comma-fields, 6 semicolon-fields and
2 tab-fields (each line containing 4 commas, 5 semicolons and 1 tab,
pairwise non-adjacent), the semicolon interpretation is selected (part 3). -/
theorem c7_selection_ranking :
    (∀ (s : List Char) (sep₀ : Char) (w₀ h₀ : Nat) (sep : Char) (w h : Nat),
        selected_separator s = some (sep₀, w₀, h₀) →
        sep ∈ KNOWN_SEPERATORS →
        parse_size_of_csv s sep = .ok (w, h) →
        w < w₀ ∨ (w = w₀ ∧ h ≤ h₀)) ∧
      (∀ (s : List Char) (sep : Char) (w h : Nat),
        sep ∈ KNOWN_SEPERATORS →
        parse_size_of_csv s sep = .ok (w, h) →
        (selected_separator s).isSome = true) ∧
      selected_separator c7_input = some (';', 6, 2) := by
  refine ⟨?_, ?_, rfl⟩
  · intro s sep₀ w₀ h₀ sep w h hsel hmem hok
    have he : (Except.ok (sep, w, h) : Except CsvParseError (Char × Nat × Nat)) ∈
        sorted_size_results s := mem_sorted_size_results s hmem hok
    have hsorted := sorted_size_results_sorted s
    unfold selected_separator at hsel
    match hh : (sorted_size_results s).head? with
    | none => rw [hh] at hsel; exact absurd hsel (by simp)
    | some hd =>
      rw [hh] at hsel
      obtain ⟨tl, hcons⟩ : ∃ tl, sorted_size_results s = hd :: tl := by
        cases hlist : sorted_size_results s with
        | nil => rw [hlist] at hh; exact absurd hh (by simp)
        | cons x xs =>
          rw [hlist] at hh
          simp only [List.head?_cons, Option.some.injEq] at hh
          exact ⟨xs, by rw [hh] ⟩
      match hd with
      | .error _ => exact absurd hsel (by simp)
      | .ok v =>
        have hv : v = (sep₀, w₀, h₀) := by simpa using hsel
        subst hv
        rw [hcons] at hsorted he
        have hrel : size_cmp (.ok (sep₀, w₀, h₀)) (.ok (sep, w, h)) ≠ .gt := by
          rcases List.mem_cons.mp he with heq | htl
          · rw [← heq]; exact size_cmp_refl _
          · exact (List.sorted_cons.mp hsorted).1 _ htl
        rw [size_cmp] at hrel
        rw [pair_cmp_not_gt_iff] at hrel
        simpa using hrel
  · intro s sep w h hmem hok
    have he : (Except.ok (sep, w, h) : Except CsvParseError (Char × Nat × Nat)) ∈
        sorted_size_results s := mem_sorted_size_results s hmem hok
    have hsorted := sorted_size_results_sorted s
    unfold selected_separator
    cases hlist : sorted_size_results s with
    | nil => rw [hlist] at he; exact absurd he (by simp)
    | cons hd tl =>
      rw [hlist] at hsorted he
      match hd with
      | .ok v => simp
      | .error e =>
        exfalso
        rcases List.mem_cons.mp he with heq | htl
        · exact absurd heq (by simp)
        · have := (List.sorted_cons.mp hsorted).1 _ htl
          rw [size_cmp] at this
          exact this rfl

/-- C9, counterexample.  The claim says `move_cursor` returns `true` iff the
cursor actually moved.  Moving by `(0, 0)` leaves the cursor (and the whole
grid) unchanged, yet the call returns `true`, because the source's flag
records "no clamping happened", not "the cursor moved". -/
theorem c9_move_cursor_true_without_moving :
    c9_grid.move_cursor 0 0 = some (c9_grid, true) := rfl

/-- One coordinate of `move_cursor`'s clamping, written exactly as in the
embedding's branch structure. -/
theorem clamp_coord (w c : Nat) (d : Int) (hw : 0 < w) :
    (if (c : Int) + d < 0 then some ((0 : Nat), false)
     else if (w : Int) ≤ (c : Int) + d then
       if w = 0 then none else some (w - 1, false)
     else some (((c : Int) + d).toNat, true)) =
      some ((min (max ((c : Int) + d) 0) ((w : Int) - 1)).toNat,
        decide (0 ≤ (c : Int) + d ∧ (c : Int) + d < (w : Int))) := by
  split_ifs with h1 h2 h3
  · rw [decide_eq_false (by omega)]
    simp only [Option.some.injEq, Prod.mk.injEq]
    exact ⟨by omega, trivial⟩
  · omega
  · rw [decide_eq_false (by omega)]
    simp only [Option.some.injEq, Prod.mk.injEq]
    exact ⟨by omega, trivial⟩
  · rw [decide_eq_true (by omega)]
    simp only [Option.some.injEq, Prod.mk.injEq]
    exact ⟨by omega, trivial⟩

/-- C9, amended.  For every grid with positive dimensions, `move_cursor`
sets the cursor to the component-wise clamp of `cursor + (dx, dy)` into the
grid bounds and returns `true` iff the *target* was already within bounds
(no clamping occurred) — not whether the cursor changed. -/
theorem c9_move_cursor_clamps (s : Spreadsheet) (dx dy : Int)
    (hw : 0 < s.width) (hh : 0 < s.height) :
    s.move_cursor dx dy =
      some ({ s with current_cell :=
          ⟨(min (max ((s.current_cell.x : Int) + dx) 0) ((s.width : Int) - 1)).toNat,
           (min (max ((s.current_cell.y : Int) + dy) 0) ((s.height : Int) - 1)).toNat⟩ },
        decide (0 ≤ (s.current_cell.x : Int) + dx ∧
            (s.current_cell.x : Int) + dx < (s.width : Int)) &&
          decide (0 ≤ (s.current_cell.y : Int) + dy ∧
            (s.current_cell.y : Int) + dy < (s.height : Int))) := by
  simp only [Spreadsheet.move_cursor]
  rw [clamp_coord s.width s.current_cell.x dx hw,
    clamp_coord s.height s.current_cell.y dy hh]

/-- Witness for C9 at a concrete input: from `(0,0)` in the 2×2 grid, a move
by `(3, -1)` clamps to `(1, 0)` and returns `false`. -/
theorem c9_witness :
    0 < c9_grid.width ∧
      c9_grid.move_cursor 3 (-1) =
        some ({ c9_grid with current_cell := ⟨1, 0⟩ }, false) := by
  refine ⟨by decide, ?_⟩
  have h := c9_move_cursor_clamps c9_grid 3 (-1) (by decide) (by decide)
  simpa using h

/-- Witness for C7's ranking at a concrete input: the comma sizing
`(5, 2)` of the representative input is ranked below the selected semicolon
sizing `(6, 2)`. -/
theorem c7_witness :
    selected_separator c7_input = some (';', 6, 2) ∧ (5 < 6 ∨ (5 = 6 ∧ 2 ≤ 2)) :=
  ⟨rfl, c7_selection_ranking.1 c7_input ';' 6 2 ',' 5 2 rfl (by decide) rfl⟩

theorem parse_usize_alpha_none (ch : Char) (rest : List Char)
    (h : is_ascii_alphabetic ch = true) : parse_usize (ch :: rest) = none := by
  have hdigit : is_ascii_digit ch = false := by
    simp only [is_ascii_alphabetic, is_ascii_uppercase, is_ascii_lowercase,
      Bool.or_eq_true, Bool.and_eq_true, decide_eq_true_eq] at h
    simp only [is_ascii_digit, Bool.and_eq_false_iff, decide_eq_false_iff_not]
    omega
  unfold parse_usize
  split
  · next rest' heq =>
    have hch : ch = '+' := (List.cons.injEq _ _ _ _ ▸ heq).1
    rw [hch] at h
    exact absurd h (by decide)
  · next hne =>
    rw [if_neg (by simp)]
    rw [if_neg ?_]
    intro hall
    have := (List.all_eq_true.mp hall) ch (List.mem_cons_self ch rest)
    rw [hdigit] at this
    exact Bool.false_ne_true this

theorem cell_name_go_lower_none :
    ∀ (cs : List Char) (x : Nat) (hc : Bool),
      (∃ c ∈ cs.takeWhile is_ascii_alphabetic, is_ascii_lowercase c = true) →
      cell_name_to_position_go cs x hc = none := by
  intro cs
  induction cs with
  | nil => intro x hc h; simp [List.takeWhile] at h
  | cons ch rest ih =>
    intro x hc h
    by_cases halpha : is_ascii_alphabetic ch = true
    · rw [List.takeWhile_cons, if_pos halpha] at h
      by_cases hupper : is_ascii_uppercase ch = true
      · have hnl : is_ascii_lowercase ch = false := by
          cases hl : is_ascii_lowercase ch
          · rfl
          · exfalso
            simp only [is_ascii_uppercase, Bool.and_eq_true, decide_eq_true_eq] at hupper
            simp only [is_ascii_lowercase, Bool.and_eq_true, decide_eq_true_eq] at hl
            omega
        obtain ⟨c, hcmem, hclower⟩ := h
        rcases List.mem_cons.mp hcmem with rfl | hcmem
        · rw [hnl] at hclower
          exact absurd hclower (by simp)
        · rw [cell_name_to_position_go, if_pos (by rw [halpha, hupper]; rfl)]
          exact ih _ true ⟨c, hcmem, hclower⟩
      · rw [cell_name_to_position_go,
          if_neg (by rw [halpha, Bool.true_and]; exact hupper)]
        cases hc with
        | false => rw [if_neg (by simp)]
        | true =>
          rw [if_pos rfl, parse_usize_alpha_none ch rest halpha]
          rfl
    · rw [List.takeWhile_cons, if_neg halpha] at h
      simp at h

/-- C10.  `cell_name_to_position` accepts only *uppercase* ASCII letters in
the column part: any name whose leading letters include a lowercase letter
fails (first conjunct; at a lowercase first letter the scan fails directly,
and after an uppercase prefix the remainder, which starts with the
lowercase letter, fails to parse as a row number).  In particular `"a1"`
fails while `"A1"` parses to `(0, 1)`, even though `column_name_to_index`
accepts the same column text case-insensitively (`"a"` and `"A"` both give
column 0). -/
theorem c10_cell_name_uppercase_only :
    (∀ cs : List Char,
        (∃ c ∈ cs.takeWhile is_ascii_alphabetic, is_ascii_lowercase c = true) →
        cell_name_to_position cs = none) ∧
      cell_name_to_position "a1".toList = none ∧
      cell_name_to_position "A1".toList = some (0, 1) ∧
      column_name_to_index "a".toList = some 0 ∧
      column_name_to_index "A".toList = some 0 := by
  refine ⟨?_, rfl, rfl, rfl, rfl⟩
  intro cs h
  exact cell_name_go_lower_none cs 0 false h

/-- Witness for C10's universal part at a concrete input: `"Ba1"` has a
lowercase letter among its leading letters, so it fails. -/
theorem c10_witness :
    (∃ c ∈ "Ba1".toList.takeWhile is_ascii_alphabetic, is_ascii_lowercase c = true) ∧
      cell_name_to_position "Ba1".toList = none :=
  ⟨by decide, c10_cell_name_uppercase_only.1 "Ba1".toList (by decide)⟩

theorem as_rows_go_length (w : Nat) :
    ∀ (n : Nat) (cs : List Cell), (as_rows_go w n cs).length = n := by
  intro n
  induction n with
  | zero => intro cs; rfl
  | succ n ih => intro cs; simp [as_rows_go, ih]

theorem as_rows_go_flatten (w : Nat) :
    ∀ (rs : List (List Cell)), (∀ r ∈ rs, r.length = w) →
      as_rows_go w rs.length rs.flatten = rs := by
  intro rs
  induction rs with
  | nil => intro _; rfl
  | cons r rest ih =>
    intro hw
    have hr : r.length = w := hw r (List.mem_cons_self r rest)
    simp only [List.flatten_cons, List.length_cons, as_rows_go]
    rw [List.take_left' hr, List.drop_left' hr,
      ih (fun x hx => hw x (List.mem_cons_of_mem r hx))]

theorem flatten_as_rows_go (w : Nat) :
    ∀ (n : Nat) (cs : List Cell), cs.length = w * n →
      (as_rows_go w n cs).flatten = cs := by
  intro n
  induction n with
  | zero =>
    intro cs h
    rw [Nat.mul_zero] at h
    rw [List.length_eq_zero.mp h]
    rfl
  | succ n ih =>
    intro cs h
    simp only [as_rows_go, List.flatten_cons]
    rw [ih (cs.drop w) (by rw [List.length_drop, h, Nat.mul_succ]; omega),
      List.take_append_drop]

theorem as_rows_go_row_length (w : Nat) :
    ∀ (n : Nat) (cs : List Cell), cs.length = w * n →
      ∀ r ∈ as_rows_go w n cs, r.length = w := by
  intro n
  induction n with
  | zero => intro cs _ r hr; simp [as_rows_go] at hr
  | succ n ih =>
    intro cs h r hr
    rcases List.mem_cons.mp hr with rfl | hr
    · rw [List.length_take, h, Nat.mul_succ]
      omega
    · exact ih (cs.drop w) (by rw [List.length_drop, h, Nat.mul_succ]; omega) r hr

theorem set_positions_length (w : Nat) :
    ∀ (l : List Cell) (i : Nat), (set_positions w i l).length = l.length := by
  intro l
  induction l with
  | nil => intro i; rfl
  | cons c cs ih => intro i; simp [set_positions, ih]

theorem set_positions_take (w : Nat) :
    ∀ (l : List Cell) (i n : Nat),
      (set_positions w i l).take n = set_positions w i (l.take n) := by
  intro l
  induction l with
  | nil => intro i n; simp [set_positions]
  | cons c cs ih =>
    intro i n
    match n with
    | 0 => rfl
    | n + 1 => simp [set_positions, List.take_succ_cons, ih]

theorem set_positions_drop (w : Nat) :
    ∀ (l : List Cell) (i n : Nat),
      (set_positions w i l).drop n = set_positions w (i + n) (l.drop n) := by
  intro l
  induction l with
  | nil => intro i n; simp [set_positions]
  | cons c cs ih =>
    intro i n
    match n with
    | 0 => rfl
    | n + 1 =>
      simp only [set_positions, List.drop_succ_cons]
      rw [ih (i + 1) n]
      congr 1
      omega

theorem map_content_set_positions (w : Nat) :
    ∀ (l : List Cell) (i : Nat),
      (set_positions w i l).map Cell.content = l.map Cell.content := by
  intro l
  induction l with
  | nil => intro i; rfl
  | cons c cs ih => intro i; simp [set_positions, ih]

theorem get_set_positions (w : Nat) :
    ∀ (l : List Cell) (i k : Nat) (h : k < (set_positions w i l).length),
      ((set_positions w i l).get ⟨k, h⟩).position = CellPosition.from_index (i + k) w := by
  intro l
  induction l with
  | nil => intro i k h; simp [set_positions] at h
  | cons c cs ih =>
    intro i k h
    match k with
    | 0 => rfl
    | k + 1 =>
      simp only [set_positions, List.get_cons_succ]
      rw [ih (i + 1) k]
      congr 1
      omega

theorem set_positions_id (w : Nat) :
    ∀ (l : List Cell) (i : Nat),
      (∀ (k : Nat) (h : k < l.length),
        (l.get ⟨k, h⟩).position = CellPosition.from_index (i + k) w) →
      set_positions w i l = l := by
  intro l
  induction l with
  | nil => intro i _; rfl
  | cons c cs ih =>
    intro i hpos
    have h0 : c.position = CellPosition.from_index i w := by
      have := hpos 0 (by simp)
      simpa using this
    unfold set_positions
    rw [ih (i + 1) (fun k h => by
      have := hpos (k + 1) (by simpa using h)
      simp only [List.get_cons_succ] at this
      rw [this]
      congr 1
      omega)]
    obtain ⟨cc, cp⟩ := c
    simp only [Cell.mk.injEq, and_true, true_and]
    simp only at h0
    rw [h0]

theorem flatten_length_uniform :
    ∀ (rs : List (List Cell)) (w : Nat), (∀ r ∈ rs, r.length = w) →
      rs.flatten.length = rs.length * w := by
  intro rs
  induction rs with
  | nil => intro w _; simp
  | cons r rest ih =>
    intro w hw
    simp only [List.flatten_cons, List.length_append, List.length_cons]
    rw [hw r (List.mem_cons_self r rest),
      ih w (fun x hx => hw x (List.mem_cons_of_mem r hx)), Nat.succ_mul]
    omega

theorem flatten_take_uniform :
    ∀ (rs : List (List Cell)) (w f : Nat), (∀ r ∈ rs, r.length = w) →
      (rs.take f).flatten = rs.flatten.take (f * w) := by
  intro rs
  induction rs with
  | nil => intro w f _; simp
  | cons r rest ih =>
    intro w f hw
    match f with
    | 0 => simp
    | f + 1 =>
      have hr : r.length = w := hw r (List.mem_cons_self r rest)
      simp only [List.take_succ_cons, List.flatten_cons]
      rw [List.take_append_eq_append_take,
        List.take_of_length_le (show r.length ≤ (f + 1) * w by rw [hr, Nat.succ_mul]; omega),
        hr]
      rw [ih w f (fun x hx => hw x (List.mem_cons_of_mem r hx))]
      congr 2
      rw [Nat.succ_mul]
      omega

theorem getD_map_content :
    ∀ (r : List Cell) (c : Nat),
      (r.map Cell.content).getD c CellContent.Empty = (r.getD c default_cell).content := by
  intro r
  induction r with
  | nil => intro c; rfl
  | cons x xs ih =>
    intro c
    match c with
    | 0 => rfl
    | c + 1 => rw [List.map_cons, List.getD_cons_succ, List.getD_cons_succ, ih c]

theorem row_le_content (column : Nat) (r1 r2 : List Cell) :
    content_row_le column (r1.map Cell.content) (r2.map Cell.content) ↔
      row_le column r1 r2 := by
  unfold content_row_le row_le sort_key
  rw [getD_map_content, getD_map_content]

theorem as_rows_go_map_set_positions (w : Nat) :
    ∀ (n i : Nat) (l : List Cell),
      (as_rows_go w n (set_positions w i l)).map (List.map Cell.content) =
        (as_rows_go w n l).map (List.map Cell.content) := by
  intro n
  induction n with
  | zero => intro i l; rfl
  | succ n ih =>
    intro i l
    simp only [as_rows_go, List.map_cons]
    rw [set_positions_take, map_content_set_positions, set_positions_drop, ih]

/-- C8, counterexample.  The claim says the rows after the fixed prefix end
up as the reverse of an ascending arrangement under the comparator.  For
`c8_cex_grid` (fixed rows 0) the reversed result is not sorted — and
neither is the other arrangement of its two rows (third conjunct), so no
output of any sort could satisfy the claim: the comparator is not a total
order on these contents (claim C4), and "ascending order" does not exist
for them. -/
theorem c8_sort_column_not_reverse_sorted_cex :
    ¬ List.Sorted (content_row_le 0)
        ((((c8_cex_grid.sort_column 0).as_rows.drop c8_cex_grid.fixed_rows).map
          (List.map Cell.content)).reverse) ∧
      ¬ List.Sorted (content_row_le 0)
        (((((c8_cex_grid.sort_column 0).as_rows.drop c8_cex_grid.fixed_rows).map
          (List.map Cell.content)).reverse).reverse) := by
  constructor <;> decide

/-- C8, amended.  For a well-formed grid (cell count `width * height`,
positions row-major), a valid column index, and a column whose movable-row
keys are pairwise comparable and transitively ordered under the comparator
(which fails in general, see the counterexample), `sort_column`:
(1) leaves the first `fixed_rows * width` cells unchanged in place,
(2) arranges the remaining rows so that their reverse is ascending under
the §4.2 comparator applied to the column-`column` cells,
(3) with those rows a permutation of the original remaining rows
(contents compared; positions are rewritten), and
(4) afterwards every cell's stored position matches its row-major index. -/
theorem c8_sort_column_amended (s : Spreadsheet) (column : Nat)
    (_hc : column < s.width)
    (hlen : s.cells.length = s.width * s.height)
    (hfr : s.fixed_rows ≤ s.height)
    (hpos : ∀ (i : Nat) (h : i < s.cells.length),
      (s.cells.get ⟨i, h⟩).position = CellPosition.from_index i s.width)
    (htot : ∀ r1 ∈ s.as_rows.drop s.fixed_rows, ∀ r2 ∈ s.as_rows.drop s.fixed_rows,
      row_le column r1 r2 ∨ row_le column r2 r1)
    (htr : ∀ r1 ∈ s.as_rows.drop s.fixed_rows, ∀ r2 ∈ s.as_rows.drop s.fixed_rows,
      ∀ r3 ∈ s.as_rows.drop s.fixed_rows,
      row_le column r1 r2 → row_le column r2 r3 → row_le column r1 r3) :
    (s.sort_column column).cells.take (s.fixed_rows * s.width) =
        s.cells.take (s.fixed_rows * s.width) ∧
      List.Sorted (content_row_le column)
        ((((s.sort_column column).as_rows.drop s.fixed_rows).map
          (List.map Cell.content)).reverse) ∧
      List.Perm
        ((((s.sort_column column).as_rows.drop s.fixed_rows).map
          (List.map Cell.content)).reverse)
        ((s.as_rows.drop s.fixed_rows).map (List.map Cell.content)) ∧
      ∀ (i : Nat) (h : i < (s.sort_column column).cells.length),
        ((s.sort_column column).cells.get ⟨i, h⟩).position =
          CellPosition.from_index i s.width := by
  have hrows_len : ∀ r ∈ s.as_rows, r.length = s.width :=
    as_rows_go_row_length s.width s.height s.cells hlen
  have hrows_count : s.as_rows.length = s.height := as_rows_go_length s.width s.height s.cells
  have hflat : s.as_rows.flatten = s.cells := flatten_as_rows_go s.width s.height s.cells hlen
  have hmem_sorted :
      ∀ r ∈ List.insertionSort (row_le column) (s.as_rows.drop s.fixed_rows),
        r ∈ s.as_rows := fun r hr =>
    List.mem_of_mem_drop ((List.perm_insertionSort _ _).mem_iff.mp hr)
  have hcount_take : (s.as_rows.take s.fixed_rows).length = s.fixed_rows := by
    rw [List.length_take, hrows_count]
    omega
  have hcount_sorted :
      (List.insertionSort (row_le column) (s.as_rows.drop s.fixed_rows)).length =
        s.height - s.fixed_rows := by
    rw [(List.perm_insertionSort _ _).length_eq, List.length_drop, hrows_count]
  have hcomb_rowlen :
      ∀ r ∈ s.as_rows.take s.fixed_rows ++
          (List.insertionSort (row_le column) (s.as_rows.drop s.fixed_rows)).reverse,
        r.length = s.width := by
    intro r hr
    rcases List.mem_append.mp hr with hr | hr
    · exact hrows_len r (List.mem_of_mem_take hr)
    · exact hrows_len r (hmem_sorted r (List.mem_reverse.mp hr))
  have hcomb_count :
      (s.as_rows.take s.fixed_rows ++
          (List.insertionSort (row_le column) (s.as_rows.drop s.fixed_rows)).reverse).length =
        s.height := by
    rw [List.length_append, hcount_take, List.length_reverse, hcount_sorted]
    omega
  have hchunks :
      as_rows_go s.width s.height
          ((s.as_rows.take s.fixed_rows ++
            (List.insertionSort (row_le column) (s.as_rows.drop s.fixed_rows)).reverse).flatten) =
        s.as_rows.take s.fixed_rows ++
          (List.insertionSort (row_le column) (s.as_rows.drop s.fixed_rows)).reverse := by
    have := as_rows_go_flatten s.width
      (s.as_rows.take s.fixed_rows ++
        (List.insertionSort (row_le column) (s.as_rows.drop s.fixed_rows)).reverse)
      hcomb_rowlen
    rw [hcomb_count] at this
    exact this
  have ht_cells : (s.sort_column column).cells =
      set_positions s.width 0
        ((s.as_rows.take s.fixed_rows ++
          (List.insertionSort (row_le column) (s.as_rows.drop s.fixed_rows)).reverse).flatten) :=
    rfl
  have htake_fixed :
      ((s.as_rows.take s.fixed_rows ++
          (List.insertionSort (row_le column) (s.as_rows.drop s.fixed_rows)).reverse).flatten).take
        (s.fixed_rows * s.width) = s.cells.take (s.fixed_rows * s.width) := by
    rw [List.flatten_append]
    rw [List.take_left' (by
      rw [flatten_length_uniform _ s.width
        (fun r hr => hrows_len r (List.mem_of_mem_take hr)), hcount_take])]
    rw [flatten_take_uniform s.as_rows s.width s.fixed_rows hrows_len, hflat]
  have hcontent :
      (((s.sort_column column).as_rows.drop s.fixed_rows).map
          (List.map Cell.content)).reverse =
        (List.insertionSort (row_le column) (s.as_rows.drop s.fixed_rows)).map
          (List.map Cell.content) := by
    have h1 : (s.sort_column column).as_rows.drop s.fixed_rows =
        (as_rows_go s.width s.height
          (set_positions s.width 0
            ((s.as_rows.take s.fixed_rows ++
              (List.insertionSort (row_le column) (s.as_rows.drop s.fixed_rows)).reverse).flatten))).drop
          s.fixed_rows := rfl
    rw [h1, List.map_drop, as_rows_go_map_set_positions, hchunks, List.map_append,
      List.drop_left' (by rw [List.length_map, hcount_take]),
      List.map_reverse, List.reverse_reverse]
  refine ⟨?_, ?_, ?_, ?_⟩
  · rw [ht_cells, set_positions_take, htake_fixed]
    apply set_positions_id
    intro k hk
    have hk' : k < s.cells.length := by
      have := List.length_take_le' (s.fixed_rows * s.width) s.cells
      omega
    rw [List.get_eq_getElem, List.getElem_take, Nat.zero_add,
      ← List.get_eq_getElem s.cells ⟨k, hk'⟩]
    exact hpos k hk'
  · rw [hcontent]
    exact List.Pairwise.map _ (fun a b hab => (row_le_content column a b).mpr hab)
      (sorted_insertionSort_local (row_le column) (s.as_rows.drop s.fixed_rows) htot htr)
  · rw [hcontent]
    exact (List.perm_insertionSort _ _).map _
  · intro i hi
    have := get_set_positions s.width
      ((s.as_rows.take s.fixed_rows ++
        (List.insertionSort (row_le column) (s.as_rows.drop s.fixed_rows)).reverse).flatten)
      0 i hi
    rw [Nat.zero_add] at this
    exact this

/-- Witness for C8 at a concrete grid: the amended theorem applies to the
numeric column `[3, 1, 2]`, whose keys are totally ordered. -/
theorem c8_witness :
    0 < c8_witness_grid.width ∧
      ((c8_witness_grid.sort_column 0).cells.take
            (c8_witness_grid.fixed_rows * c8_witness_grid.width) =
          c8_witness_grid.cells.take
            (c8_witness_grid.fixed_rows * c8_witness_grid.width) ∧
        List.Sorted (content_row_le 0)
          ((((c8_witness_grid.sort_column 0).as_rows.drop c8_witness_grid.fixed_rows).map
            (List.map Cell.content)).reverse) ∧
        List.Perm
          ((((c8_witness_grid.sort_column 0).as_rows.drop c8_witness_grid.fixed_rows).map
            (List.map Cell.content)).reverse)
          ((c8_witness_grid.as_rows.drop c8_witness_grid.fixed_rows).map
            (List.map Cell.content)) ∧
        ∀ (i : Nat) (h : i < (c8_witness_grid.sort_column 0).cells.length),
          ((c8_witness_grid.sort_column 0).cells.get ⟨i, h⟩).position =
            CellPosition.from_index i c8_witness_grid.width) :=
  ⟨by decide,
    c8_sort_column_amended c8_witness_grid 0 (by decide) (by decide) (by decide)
      (by decide) (by decide) (by decide)⟩

/-- C1.  The first conjunct shows the failing input is well formed: it is
exactly what `parse_raw` yields for `"A1+B1"`.  The second conjunct shows
`moved_to` panics on it when moved by `(dx, dy) = (1, 0)` to `(1, 0)`:
the first reference `A1` is rewritten to `B1`, but the relocation cursor is
left at the *start* of the replacement, so the search for the second
reference's old text `B1` matches the text just written, producing raw
`"C1+B1"` whose reparse gives `[C1, B1]` — not the shifted list
`[B1, C1]` — and the `assert_eq!` at formula.rs line 193 fails (a panic,
`none` here) instead of returning the shifted formula the claim (and
spec §8) promises. -/
theorem c1_moved_to_panics_on_colliding_names :
    parse_raw "A1+B1".toList (100, 100) =
        some ("A1+B1".toList, [.Cell ⟨0, 1⟩, .Cell ⟨1, 1⟩]) ∧
      c1_formula.moved_to ⟨1, 0⟩ (100, 100) = none :=
  ⟨rfl, rfl⟩

/-- C4.  A `Formula` whose `value` is `Empty` or `Error` compares `Less`
than every cell content, unconditionally — including another such formula,
so for two such formulas `a` and `b` both `a < b` and `b < a` hold and the
ordering is not a valid total order. -/
theorem c4_formula_empty_error_less_than_everything (f g : Formula) (b : CellContent)
    (hf : f.value = .Empty ∨ f.value = .Error)
    (hg : g.value = .Empty ∨ g.value = .Error) :
    CellContent.cmp (.Formula f) b = .lt ∧
      CellContent.cmp (.Formula f) (.Formula g) = .lt ∧
      CellContent.cmp (.Formula g) (.Formula f) = .lt := by
  rcases hf with hf | hf <;> rcases hg with hg | hg <;>
    simp [CellContent.cmp, CellContent.cmp_opt, hf, hg]

/-- Witness for C4 at concrete inputs: an `Empty`-valued and an
`Error`-valued formula, compared with `Number 0` and with each other. -/
theorem c4_witness :
    ((Formula.new_at ⟨0, 0⟩).value = .Empty ∨ (Formula.new_at ⟨0, 0⟩).value = .Error) ∧
      (CellContent.cmp (.Formula (Formula.new_at ⟨0, 0⟩)) (.Number 0) = .lt ∧
        CellContent.cmp (.Formula (Formula.new_at ⟨0, 0⟩))
          (.Formula { Formula.new_at ⟨1, 1⟩ with value := .Error }) = .lt ∧
        CellContent.cmp (.Formula { Formula.new_at ⟨1, 1⟩ with value := .Error })
          (.Formula (Formula.new_at ⟨0, 0⟩)) = .lt) :=
  ⟨Or.inl rfl,
    c4_formula_empty_error_less_than_everything (Formula.new_at ⟨0, 0⟩)
      { Formula.new_at ⟨1, 1⟩ with value := .Error } (.Number 0)
      (Or.inl rfl) (Or.inr rfl)⟩
